import Mathlib

/-!
Verification of the smtp-dashboard repository (src/main.py, src/spam_model.py,
src/smtp_handler.py) against its natural-language specification.

Modelling conventions:
* Python `str` values are modelled as `List Char` (`Str` below); `bytes` payloads
  appear only through their replacement-decoded text (`bytes.decode(errors='replace')`
  is total, so it is modelled as a plain `Str` input).
* Python `float` arithmetic on the small decimal score increments (0.25, 0.15,
  0.2, 0.08, the 0.5 threshold and the 1.0 clamp) is modelled exactly over `ℚ`.
* Python exceptions are modelled with `Except`: a function that can raise returns
  `Except PyError _`, and `try/except` blocks become `match` on that result.
* Mutable state (`stats` in main.py, `ConnectionManager.active`) is threaded
  explicitly: each operation takes the state and returns the updated state.
-/

/-- A Python string, modelled as its list of characters. -/
abbrev Str := List Char

/-- Model of Python `str.lower` (character-wise lowering; the repository only
lowers ASCII e-mail text). -/
def lowerL (s : Str) : Str := s.map Char.toLower

/-- If `pat` is a prefix of `s`, return the remainder of `s` after `pat`. -/
def dropLit : Str → Str → Option Str
  | [], s => some s
  | _ :: _, [] => none
  | p :: ps, c :: cs => if p = c then dropLit ps cs else none

/-- Model of Python `str.startswith`. -/
def startsWithL (pat s : Str) : Bool := (dropLit pat s).isSome

/-- Whether the literal `lit` occurs as a contiguous substring of `s`
(the semantics of `re.search` for a plain literal pattern). -/
def hasSub (lit : Str) : Str → Bool
  | [] => (dropLit lit []).isSome
  | c :: rest => (dropLit lit (c :: rest)).isSome || hasSub lit rest

/-- Model of the regex word-character class `\w` as used by `\b` in
`spam_model.py` (ASCII letters, digits and underscore; the repository's
keyword patterns and the spec's examples are ASCII-only). -/
def isWordChar (c : Char) : Bool := c.isAlphanum || c == '_'

/-- Whether `lit` occurs at the head of `s` followed by a word boundary
(end of string or a non-word character), i.e. `lit\b` matches here. -/
def wordBHere (lit s : Str) : Bool :=
  match dropLit lit s with
  | none => false
  | some [] => true
  | some (c :: _) => !(isWordChar c)

/-- Model of `re.search(r"lit\b", s)` for a literal `lit` ending in a word
character (as `free` and `cheap` do): the literal occurs somewhere in `s`
with a word boundary immediately after it. -/
def matchWordB (lit : Str) : Str → Bool
  | [] => wordBHere lit []
  | c :: rest => wordBHere lit (c :: rest) || matchWordB lit rest

/-- Whether `s` begins with a dollar sign immediately followed by a digit,
i.e. `\$\d+` matches at the head of `s`. -/
def dollarHere : Str → Bool
  | c1 :: c2 :: _ => c1 == '$' && c2.isDigit
  | _ => false

/-- Model of `re.search(r"\$\d+", s)`: a dollar sign immediately followed by
at least one digit occurs somewhere in `s`. -/
def matchDollar : Str → Bool
  | [] => false
  | c :: rest => dollarHere (c :: rest) || matchDollar rest

/-- Model of `EXCLAMATION_RE = re.compile(r"!{2,}")` searched over a text:
two consecutive exclamation marks occur somewhere. -/
def hasExclaim : Str → Bool
  | '!' :: '!' :: _ => true
  | _ :: rest => hasExclaim rest
  | [] => false

/-- Model of Python's `\S` (non-whitespace) complement: whitespace test used
by `URL_RE = re.compile(r"https?://\S+")`. -/
def isSpaceP (c : Char) : Bool := c.isWhitespace

/-- Attempt to match `https?://\S+` at the head of `s`.  On success, return
the remainder of `s` after the whole (greedy) match.  The optional `s` of
`https?` needs no backtracking: if the character after `http` is `s`, the
no-`s` alternative would require that same `s` to be `:`, which fails. -/
def tryUrlAt (s : Str) : Option Str :=
  match dropLit ['h', 't', 't', 'p'] s with
  | none => none
  | some s1 =>
    let s2 := match s1 with
      | 's' :: r => r
      | _ => s1
    match dropLit [':', '/', '/'] s2 with
    | none => none
    | some s3 =>
      match s3 with
      | [] => none
      | c :: r => if isSpaceP c then none else some (r.dropWhile (fun ch => !(isSpaceP ch)))

/-- Left-to-right non-overlapping scan counting matches of `https?://\S+`,
the semantics of `len(URL_RE.findall(text))`.  The second argument counts
characters still to be skipped because they belong to the previous match
(a match that succeeds at a position consumes its whole greedy span, and
the scan resumes after it). -/
def scanUrls : Str → Nat → Nat
  | [], _ => 0
  | _ :: rest, Nat.succ skip => scanUrls rest skip
  | c :: rest, 0 =>
    match tryUrlAt (c :: rest) with
    | some r => 1 + scanUrls rest ((c :: rest).length - r.length - 1)
    | none => scanUrls rest 0

/-- Model of `len(URL_RE.findall(text))` from `spam_model.py`. -/
def countUrls (s : Str) : Nat := scanUrls s 0

/-- The three shapes of regex appearing in `SPAM_KEYWORDS`:
a plain literal, a literal followed by `\b`, and the `\$\d+` pattern. -/
inductive Pat where
  | lit (pat : Str)
  | litWordB (pat : Str)
  | dollarDigits
  deriving DecidableEq

/-- Model of `re.search(kw, text)` for the three pattern shapes. -/
def reSearch : Pat → Str → Bool
  | .lit p, s => hasSub p s
  | .litWordB p, s => matchWordB p s
  | .dollarDigits, s => matchDollar s

/-- The fixed keyword list `SPAM_KEYWORDS` of `spam_model.py`:
`[r"free\b", r"buy now", r"limited time", r"winner", r"congratulat",
r"claim prize", r"click here", r"urgent", r"act now", r"cheap\b",
r"\$\d+", r"viagra", r"lottery"]`. -/
def SPAM_KEYWORDS : List Pat :=
  [ .litWordB "free".toList
  , .lit "buy now".toList
  , .lit "limited time".toList
  , .lit "winner".toList
  , .lit "congratulat".toList
  , .lit "claim prize".toList
  , .lit "click here".toList
  , .lit "urgent".toList
  , .lit "act now".toList
  , .litWordB "cheap".toList
  , .dollarDigits
  , .lit "viagra".toList
  , .lit "lottery".toList ]

/-- The keyword loop of `rule_based_detection`: starting from a running
score, add 0.25 for each keyword pattern that matches the (already
lower-cased) text. -/
def keywordScore (text_l : Str) : ℚ :=
  SPAM_KEYWORDS.foldl (fun sc kw => if reSearch kw text_l then sc + 1/4 else sc) 0

/-- Model of Python `min(a, b)` on two floats (returns the first argument
on ties, which coincides with `if a ≤ b then a else b`). -/
def pymin (a b : ℚ) : ℚ := if a ≤ b then a else b

/-- The verdict dictionary `{'is_spam': bool, 'score': float}`. -/
structure Verdict where
  is_spam : Bool
  score : ℚ
  deriving DecidableEq

/-- Model of `rule_based_detection` from `spam_model.py`: lower-case the
text, add 0.25 per matching keyword pattern, add 0.15 if the original text
contains two consecutive `!`, add 0.2 for two or more URLs or 0.08 for
exactly one, clamp at 1.0, and flag spam at score ≥ 0.5. -/
def rule_based_detection (text : Str) : Verdict :=
  let text_l := lowerL text
  let score1 := keywordScore text_l
  let score2 := if hasExclaim text then score1 + 3/20 else score1
  let urls := countUrls text
  let score3 := if 2 ≤ urls then score2 + 1/5 else if urls = 1 then score2 + 2/25 else score2
  let score := pymin score3 1
  { is_spam := decide ((1:ℚ)/2 ≤ score), score := score }

/-- Model of `SpamModel.predict`.  The loaded pipeline, when present, is an
opaque text-to-probability function (`predict_proba(...)[0][1]`); `none`
models the no-artifact process in which the rule-based fallback runs.
The argument `text : Option Str` models a possibly-`None` Python argument;
`text or ""` maps both `None` and `""` to `""`. -/
def predict (pipeline : Option (Str → ℚ)) (text : Option Str) : Verdict :=
  let txt : Str := match text with
    | none => []
    | some t => t
  match pipeline with
  | some p =>
    let proba := p txt
    { is_spam := decide ((1:ℚ)/2 ≤ proba), score := proba }
  | none => rule_based_detection txt

/-- Model of Python `str.join`: `pyJoin sep [a, b, c] = a ++ sep ++ b ++ sep ++ c`,
with `pyJoin sep [] = ""`. -/
def pyJoin (sep : Str) : List Str → Str
  | [] => []
  | [p] => p
  | p :: q :: ps => p ++ sep ++ pyJoin sep (q :: ps)

/-- Exceptions that the Python standard-library calls made by `parse_email`
can raise (e.g. `LookupError` from decoding a text payload whose declared
charset is not a registered codec). -/
inductive PyError where
  | lookupError (enc : Str)
  | other (msg : Str)
  deriving DecidableEq

/-- One sub-part of a multipart message as yielded by `EmailMessage.walk()`:
its content type and the result of `get_content()` on it. -/
structure PyPart where
  contentType : Str
  content : Except PyError Str

/-- Model of the `email.message.EmailMessage` produced by
`BytesParser(policy=policy.default).parsebytes(msg_bytes)`.  `parsebytes`
itself never raises on malformed bytes (it records defects instead), so the
message structure is total data; header lookups (`msg.get(...)`) yield
`none` when the header is absent.  `content` models `msg.get_content()`,
which CAN raise — per CPython's `email.contentmanager.get_text_content`,
decoding a `text/*` payload whose declared charset is not a registered
codec raises `LookupError` — hence an `Except` result.  `parts` models
`msg.walk()` in document order (relevant when `isMultipart`). -/
structure PyMessage where
  subject : Option Str
  fromH : Option Str
  toH : Option Str
  isMultipart : Bool
  parts : List PyPart
  content : Except PyError Str

/-- The dictionary returned by `parse_email`. -/
structure ParsedEmail where
  subject : Str
  fromH : Str
  toH : Str
  body : Str
  raw : Str
  deriving DecidableEq

/-- The multipart branch of `parse_email`: collect `p.get_content()` of every
`text/plain` part in walk order; the first failing part raises. -/
def getParts : List PyPart → Except PyError (List Str)
  | [] => .ok []
  | p :: ps =>
    if p.contentType = "text/plain".toList then
      match p.content with
      | .error e => .error e
      | .ok c =>
        match getParts ps with
        | .error e => .error e
        | .ok cs => .ok (c :: cs)
    else getParts ps

/-- The body computation of `parse_email`: `"\n".join(text/plain parts)` for
multipart messages, `msg.get_content()` otherwise. -/
def bodyResult (msg : PyMessage) : Except PyError Str :=
  if msg.isMultipart then
    match getParts msg.parts with
    | .error e => .error e
    | .ok ps => .ok (pyJoin ['\n'] ps)
  else msg.content

/-- Model of `parse_email` from `main.py`.  `raw` is the (total)
replacement decoding `msg_bytes.decode(errors='replace')` of the payload.
Header lookups use default `""` (`msg.get("subject", "") or ""` etc.); the
body computation can raise, and `parse_email` has no `try/except`, so such
an error propagates to the caller. -/
def parse_email (msg : PyMessage) (raw : Str) : Except PyError ParsedEmail :=
  match bodyResult msg with
  | .error e => .error e
  | .ok body =>
    .ok { subject := msg.subject.getD []
        , fromH := msg.fromH.getD []
        , toH := msg.toH.getD []
        , body := body
        , raw := raw }

/-- Whether the body computation of `parse_email` succeeds for `msg`. -/
def contentOk (msg : PyMessage) : Bool :=
  match bodyResult msg with
  | .ok _ => true
  | .error _ => false

/-- One event dictionary appended to `stats["events"]` by `process_email`.
`time` is the wall-clock timestamp string, an input of the model. -/
structure Event where
  time : Str
  envFrom : Str
  fromHeader : Str
  toList : List Str
  subject : Str
  is_spam : Bool
  score : ℚ
  deriving DecidableEq

/-- The in-memory `stats` dictionary of `main.py`: running totals, the
per-domain `Counter` (as an insertion-ordered association list, the order
of Python dicts), and the `deque(maxlen=200)` of recent events, newest
first.  The `smtp_status` sub-dictionary is not involved in any claim. -/
structure Stats where
  total_emails : Nat
  spam_count : Nat
  domains : List (Str × Nat)
  events : List Event
  deriving DecidableEq

/-- The all-zero state `stats` is created with at process start. -/
def initStats : Stats := { total_emails := 0, spam_count := 0, domains := [], events := [] }

/-- Model of `Counter.__getitem__` += 1 on a Python `Counter`: bump the
existing entry, or append a new key at the end (dict insertion order). -/
def counterInc (d : Str) : List (Str × Nat) → List (Str × Nat)
  | [] => [(d, 1)]
  | (k, c) :: rest => if k = d then (k, c + 1) :: rest else (k, c) :: counterInc d rest

/-- Model of `envelope_from.split("@")[-1]`: the suffix after the last `@`
(the whole string when no `@` occurs, as Python's `split` also gives). -/
def afterLastAt (s : Str) : Str :=
  (s.reverse.takeWhile (fun c => c != '@')).reverse

/-- The strip set of `.strip(" >")`. -/
def isSpaceGt (c : Char) : Bool := c == ' ' || c == '>'

/-- Model of Python `str.strip(chars)`: remove matching characters from both
ends. -/
def stripBoth (p : Char → Bool) (s : Str) : Str :=
  ((s.dropWhile p).reverse.dropWhile p).reverse

/-- The sender-domain extraction of `process_email` (main.py lines 100–109):
prefer the suffix after the last `@` of `envelope_from`, lower-cased; else,
when the parsed From header is truthy and contains `@`, the suffix after its
last `@`, stripped of surrounding spaces and `>`, lower-cased; else `None`.
(The surrounding `try/except` cannot fire: every operation here is total.) -/
def sender_domain (envelope_from : Str) (parsedFrom : Str) : Option Str :=
  if '@' ∈ envelope_from then
    some (lowerL (afterLastAt envelope_from))
  else if parsedFrom ≠ [] then
    if '@' ∈ parsedFrom then
      some (lowerL (stripBoth isSpaceGt (afterLastAt parsedFrom)))
    else none
  else none

/-- The critical section of `process_email` (under `stats_lock`): bump
`total_emails`, bump `spam_count` iff the verdict is spam, bump the domain
counter iff `sender_domain` is truthy (neither `None` nor `""`), and
prepend the event to the bounded deque (capacity 200, oldest evicted). -/
def recordEvent (s : Stats) (e : Event) (dom : Option Str) : Stats :=
  { total_emails := s.total_emails + 1
  , spam_count := if e.is_spam then s.spam_count + 1 else s.spam_count
  , domains :=
      match dom with
      | some d => if d = [] then s.domains else counterInc d s.domains
      | none => s.domains
  , events := (e :: s.events).take 200 }

/-- One inbound delivery: the envelope data handed over by the SMTP
collaborator, the parsed form of its message bytes, the replacement-decoded
raw text, and the timestamp taken during processing. -/
structure Delivery where
  envelope_from : Str
  rcpt_tos : List Str
  msg : PyMessage
  raw : Str
  time : Str

/-- The scoring text of `process_email`:
`" ".join([subject, body, envelope_from, from_header])`. -/
def scoringText (envelope_from : Str) (parsed : ParsedEmail) : Str :=
  pyJoin [' '] [parsed.subject, parsed.body, envelope_from, parsed.fromH]

/-- The event dictionary `process_email` builds for a successfully parsed
delivery, under classifier `classify` (which models `spam_model.predict`). -/
def eventOf (classify : Str → Verdict) (d : Delivery) (parsed : ParsedEmail) : Event :=
  let v := classify (scoringText d.envelope_from parsed)
  { time := d.time
  , envFrom := d.envelope_from
  , fromHeader := parsed.fromH
  , toList := d.rcpt_tos
  , subject := parsed.subject
  , is_spam := v.is_spam
  , score := v.score }

/-- Model of `process_email` from `main.py`: parse (an error here propagates
and leaves `stats` untouched), classify the joined scoring text, extract the
sender domain, and mutate `stats` under the lock.  Returns the new state and
the event.  `classify` abstracts `spam_model.predict` (total in the
rule-based process; an opaque total function in the trained one). -/
def process_email (classify : Str → Verdict) (s : Stats) (d : Delivery) :
    Except PyError (Stats × Event) :=
  match parse_email d.msg d.raw with
  | .error e => .error e
  | .ok parsed =>
    let event := eventOf classify d parsed
    let dom := sender_domain d.envelope_from parsed.fromH
    .ok (recordEvent s event dom, event)

/-- The net effect of one delivery on `stats`: a raised parse error leaves
the state unchanged (the exception unwinds out of `process_email` before
the lock section). -/
def stepDelivery (classify : Str → Verdict) (s : Stats) (d : Delivery) : Stats :=
  match process_email classify s d with
  | .ok (s2, _) => s2
  | .error _ => s

/-- `stats` after a sequence of deliveries processed in order. -/
def foldStats (classify : Str → Verdict) (s : Stats) (ds : List Delivery) : Stats :=
  ds.foldl (stepDelivery classify) s

/-- The event a delivery contributes to the history (`none` when its parse
raises and the delivery leaves no trace in `stats`). -/
def deliveryEvent (classify : Str → Verdict) (d : Delivery) : Option Event :=
  match parse_email d.msg d.raw with
  | .ok parsed => some (eventOf classify d parsed)
  | .error _ => none

/-- The rule-based process classifier: `spam_model.predict` with no trained
pipeline loaded. -/
def ruleClassify : Str → Verdict := fun t => predict none (some t)

/-- Model of `ForwardingHandler.handle_DATA` from `smtp_handler.py` composed
with the `process_email` callback: on any exception from processing, the
handler still answers an acceptance string. -/
def handle_DATA (classify : Str → Verdict) (s : Stats) (d : Delivery) : Str × Stats :=
  match process_email classify s d with
  | .ok (s2, _) => ("250 Message accepted for delivery".toList, s2)
  | .error _ => ("250 Message accepted (processing error)".toList, s)

/-- Sum of all per-domain counters, `sum(stats["domains"].values())`. -/
def sumCounts (l : List (Str × Nat)) : Nat := (l.map Prod.snd).sum

/-- Insert `x` into a list already sorted by count descending, after every
entry with a strictly larger count and before every entry with a smaller or
equal one — the insertion step of a stable descending sort. -/
def insertDesc (x : Str × Nat) : List (Str × Nat) → List (Str × Nat)
  | [] => [x]
  | y :: ys => if x.2 < y.2 then y :: insertDesc x ys else x :: y :: ys

/-- Stable sort by count descending, equal to Python's
`sorted(items, key=count, reverse=True)` (stable: ties keep their original
relative order). -/
def sortDesc : List (Str × Nat) → List (Str × Nat)
  | [] => []
  | x :: xs => insertDesc x (sortDesc xs)

/-- Model of `Counter.most_common(n)`: `heapq.nlargest(n, items, key=count)`,
documented equivalent to `sorted(items, key=count, reverse=True)[:n]`, over
the insertion-ordered items of the counter. -/
def most_common (n : Nat) (l : List (Str × Nat)) : List (Str × Nat) :=
  (sortDesc l).take n

/-- The serializable snapshot built by `summary_stats` (the `smtp_status`
field is configuration pass-through, not claim-relevant). -/
structure Summary where
  total_emails : Nat
  spam_count : Nat
  top_domains : List (Str × Nat)
  deriving DecidableEq

/-- Model of `summary_stats` from `main.py`. -/
def summary_stats (s : Stats) : Summary :=
  { total_emails := s.total_emails
  , spam_count := s.spam_count
  , top_domains := most_common 10 s.domains }

/-- A dashboard websocket observer: its identity plus whether `send_text`
on its channel succeeds (a closed/broken channel raises). -/
structure Observer where
  id : Nat
  ok : Bool
  deriving DecidableEq

/-- Model of `ConnectionManager.disconnect`: remove the first occurrence of
`w` if registered, else no-op. -/
def disconnect (active : List Observer) (w : Observer) : List Observer :=
  if w ∈ active then active.erase w else active

/-- The send loop of `ConnectionManager.broadcast` over a copy of the
registry: each successful send is a delivery, each failing observer is
collected into `to_remove`, in iteration order. -/
def sendAll : List Observer → List Observer × List Observer
  | [] => ([], [])
  | c :: rest =>
    let (deliv, rem) := sendAll rest
    if c.ok then (c :: deliv, rem) else (deliv, c :: rem)

/-- Model of `ConnectionManager.broadcast`: returns the observers that
received the message and the registry after the failing ones are
disconnected. -/
def broadcast (active : List Observer) : List Observer × List Observer :=
  let p := sendAll active
  (p.1, p.2.foldl disconnect active)

/-! ## Theorems -/

/-- Claim C3: the rule-based classifier on the exact input
`"FREE!! http://a http://b"` scores 0.60 (= 3/5): 0.25 from the keyword
`free`, 0.15 from the double exclamation mark, 0.20 from the two URLs, and
flags it as spam. -/
theorem c3_rule_scorer_deterministic :
    rule_based_detection "FREE!! http://a http://b".toList
      = { is_spam := true, score := 3/5 }
  ∧ keywordScore (lowerL "FREE!! http://a http://b".toList) = 1/4
  ∧ reSearch (.litWordB "free".toList) (lowerL "FREE!! http://a http://b".toList) = true
  ∧ hasExclaim "FREE!! http://a http://b".toList = true
  ∧ countUrls "FREE!! http://a http://b".toList = 2 := by
  refine ⟨?_, ?_, by decide, by decide, by decide⟩
  · simp +decide [rule_based_detection, keywordScore, SPAM_KEYWORDS, pymin]
    norm_num
  · simp +decide [keywordScore, SPAM_KEYWORDS]

/-- Claim C10: with no trained model loaded, `predict` maps both `None` and
the empty string to the empty text and returns `{'is_spam': False,
'score': 0.0}` (it is a total function, so it cannot raise); the `text or
""` normalisation makes a missing text behave like the empty string under
any pipeline. -/
theorem c10_predict_empty_defaults :
    predict none none = { is_spam := false, score := 0 }
  ∧ predict none (some []) = { is_spam := false, score := 0 }
  ∧ ∀ p : Option (Str → ℚ), predict p none = predict p (some []) := by
  refine ⟨?_, ?_, fun p => rfl⟩ <;>
    simp +decide [predict, rule_based_detection, keywordScore, SPAM_KEYWORDS, pymin]

/-- Claim C9: `handle_DATA` answers one of its two `250 ...` acceptance
strings for every delivery — also when parse/classify/aggregate raises
(the `except` branch) — and the answer always begins with the acceptance
code `250`; no rejection code exists in the handler. -/
theorem c9_handle_data_always_accepts (classify : Str → Verdict) (s : Stats) (d : Delivery) :
    ((handle_DATA classify s d).1 = "250 Message accepted for delivery".toList
      ∨ (handle_DATA classify s d).1 = "250 Message accepted (processing error)".toList)
  ∧ startsWithL "250".toList (handle_DATA classify s d).1 = true := by
  unfold handle_DATA
  cases process_email classify s d with
  | ok p =>
    obtain ⟨s2, e⟩ := p
    exact ⟨Or.inl rfl,
      (by decide : startsWithL "250".toList "250 Message accepted for delivery".toList = true)⟩
  | error e =>
    exact ⟨Or.inr rfl,
      (by decide : startsWithL "250".toList "250 Message accepted (processing error)".toList = true)⟩

/-- The parsed form of the byte string
`b"Content-Type: text/plain; charset=bogus\r\n\r\nhi"`: a single-part
`text/plain` message with no subject/from/to headers, whose
`get_content()` raises `LookupError: unknown encoding: bogus` because the
declared charset is not a registered codec. -/
def badCharsetMsg : PyMessage :=
  { subject := none, fromH := none, toH := none, isMultipart := false, parts := []
  , content := .error (.lookupError "bogus".toList) }

/-- Claim C1 counterexample: `parse_email` does not absorb every parsing
failure.  On the message modelled by `badCharsetMsg` the body-extraction
step raises, and `parse_email` — which contains no `try/except` —
propagates the error to its caller instead of returning a `ParsedMessage`
with empty-string fields. -/
theorem c1_counterexample :
    parse_email badCharsetMsg "Content-Type: text/plain; charset=bogus\r\n\r\nhi".toList
      = .error (.lookupError "bogus".toList) := rfl

/-- Claim C1, amended: `parse_email` substitutes the empty string for
missing subject/from/to headers and keeps the (total) replacement-decoded
raw text, and returns a `ParsedMessage` whenever body extraction succeeds;
but when `get_content()` of the body (or of a `text/plain` sub-part) fails,
the error propagates to the caller rather than being replaced by
empty-string fields. -/
theorem c1_parse_email_amended (msg : PyMessage) (raw : Str) :
    (contentOk msg = true →
      ∃ r, parse_email msg raw = .ok r
        ∧ r.subject = msg.subject.getD [] ∧ r.fromH = msg.fromH.getD []
        ∧ r.toH = msg.toH.getD [] ∧ r.raw = raw)
  ∧ (contentOk msg = false → ∃ e, parse_email msg raw = .error e) := by
  unfold contentOk parse_email
  cases bodyResult msg with
  | ok b => exact ⟨fun _ => ⟨_, rfl, rfl, rfl, rfl, rfl⟩, fun hc => Bool.noConfusion hc⟩
  | error e => exact ⟨fun hc => Bool.noConfusion hc, fun _ => ⟨e, rfl⟩⟩

/-- A well-formed single-part message used to instantiate the amended C1
theorem. -/
def msgOkW : PyMessage :=
  { subject := some "Hello".toList, fromH := some "a@b.test".toList, toH := none
  , isMultipart := false, parts := [], content := .ok "hi there".toList }

/-- Witness for the amended C1 theorem at a concrete successful message. -/
theorem c1_parse_email_witness :
    contentOk msgOkW = true
  ∧ ∃ r, parse_email msgOkW "raw".toList = .ok r
      ∧ r.subject = msgOkW.subject.getD [] ∧ r.fromH = msgOkW.fromH.getD []
      ∧ r.toH = msgOkW.toH.getD [] ∧ r.raw = "raw".toList :=
  ⟨rfl, (c1_parse_email_amended msgOkW "raw".toList).1 rfl⟩

/-- `takeWhile` runs through a block that satisfies the predicate and stops
at the first failing element. -/
theorem takeWhile_middle (p : Char → Bool) (l1 : Str) (x : Char) (l2 : Str)
    (h1 : ∀ c ∈ l1, p c = true) (hx : p x = false) :
    (l1 ++ x :: l2).takeWhile p = l1 := by
  induction l1 with
  | nil => simp [List.takeWhile_cons, hx]
  | cons c cs ih =>
    have hc : p c = true := h1 c (List.mem_cons_self c cs)
    simp only [List.cons_append, List.takeWhile_cons, hc, if_true]
    rw [ih (fun a ha => h1 a (List.mem_cons_of_mem c ha))]

/-- `split("@")[-1]` really is the suffix after the last `@`. -/
theorem afterLastAt_append (pre dom : Str) (h : '@' ∉ dom) :
    afterLastAt (pre ++ '@' :: dom) = dom := by
  unfold afterLastAt
  have hrev : (pre ++ '@' :: dom).reverse = dom.reverse ++ '@' :: pre.reverse := by
    simp [List.reverse_append]
  rw [hrev, takeWhile_middle _ _ _ _ ?_ ?_, List.reverse_reverse]
  · intro c hc
    have : c ∈ dom := List.mem_reverse.mp hc
    have hne : c ≠ '@' := fun he => h (he ▸ this)
    simp [hne]
  · simp

/-- Claim C6: the sender domain is the lower-cased suffix after the last `@`
of the envelope sender when it has one; otherwise, for a non-empty From
header containing `@`, the lower-cased suffix after its last `@` with
surrounding spaces and `>` stripped; otherwise no domain is extracted and
the per-domain counters of the state are left untouched. -/
theorem c6_sender_domain (envelope parsedFrom : Str) :
    (∀ pre dom, envelope = pre ++ '@' :: dom → '@' ∉ dom →
        sender_domain envelope parsedFrom = some (lowerL dom))
  ∧ ('@' ∉ envelope → parsedFrom ≠ [] →
      ∀ pre dom, parsedFrom = pre ++ '@' :: dom → '@' ∉ dom →
        sender_domain envelope parsedFrom = some (lowerL (stripBoth isSpaceGt dom)))
  ∧ ('@' ∉ envelope → (parsedFrom = [] ∨ '@' ∉ parsedFrom) →
        sender_domain envelope parsedFrom = none
        ∧ ∀ (s : Stats) (e : Event),
            (recordEvent s e (sender_domain envelope parsedFrom)).domains = s.domains) := by
  refine ⟨?_, ?_, ?_⟩
  · intro pre dom hsplit hdom
    subst hsplit
    have hmem : '@' ∈ pre ++ '@' :: dom := List.mem_append_right _ (List.mem_cons_self _ _)
    rw [sender_domain, if_pos hmem, afterLastAt_append _ _ hdom]
  · intro henv hne pre dom hsplit hdom
    subst hsplit
    have hmem : '@' ∈ pre ++ '@' :: dom := List.mem_append_right _ (List.mem_cons_self _ _)
    rw [sender_domain, if_neg henv, if_pos hne, if_pos hmem, afterLastAt_append _ _ hdom]
  · intro henv hcase
    have hnone : sender_domain envelope parsedFrom = none := by
      rcases hcase with he | hat
      · rw [sender_domain, if_neg henv, if_neg (by simp [he])]
      · by_cases hne : parsedFrom ≠ []
        · rw [sender_domain, if_neg henv, if_pos hne, if_neg hat]
        · rw [sender_domain, if_neg henv, if_neg hne]
    exact ⟨hnone, fun s e => by rw [hnone]; rfl⟩

/-- Witness for C6 at the spec's two worked examples: direct envelope
extraction, and the From-header fallback with `>`-stripping. -/
theorem c6_sender_domain_witness :
    sender_domain "promo@deals.example.com".toList [] = some "deals.example.com".toList
  ∧ sender_domain [] "\"Sale\" <sale@shop.test>".toList = some "shop.test".toList := by
  constructor
  · have h := (c6_sender_domain "promo@deals.example.com".toList []).1
      "promo".toList "deals.example.com".toList (by decide) (by decide)
    rw [h]
    decide
  · have h := (c6_sender_domain [] "\"Sale\" <sale@shop.test>".toList).2.1
      (by decide) (by decide) "\"Sale\" <sale".toList "shop.test>".toList (by decide) (by decide)
    rw [h]
    decide

/-- The send loop partitions the registry copy into successful deliveries
and the `to_remove` list, both in iteration order. -/
theorem sendAll_eq (l : List Observer) :
    sendAll l = (l.filter (fun c => c.ok), l.filter (fun c => !c.ok)) := by
  induction l with
  | nil => rfl
  | cons c rest ih =>
    unfold sendAll
    rw [ih]
    by_cases hc : c.ok
    · simp [hc]
    · simp [hc]

/-- Counting occurrences survives filtering by a predicate the counted
element satisfies. -/
theorem count_filter_self {p : Observer → Bool} {c : Observer} (hp : p c = true) :
    ∀ l : List Observer, (l.filter p).count c = l.count c := by
  intro l
  induction l with
  | nil => rfl
  | cons x rest ih =>
    by_cases hx : p x
    · simp [List.filter_cons, hx, List.count_cons, ih]
    · have hxc : ¬(c = x) := fun he => by rw [he] at hp; exact hx hp
      simp [List.filter_cons, hx, List.count_cons, ih, beq_iff_eq, hxc]

/-- Folding `disconnect` over a removal list erases every occurrence of an
element that occurs at least as often in the removal list as in the
registry. -/
theorem foldl_disconnect_count (rem : List Observer) :
    ∀ (act : List Observer) (c : Observer),
      act.count c ≤ rem.count c → (rem.foldl disconnect act).count c = 0 := by
  induction rem with
  | nil =>
    intro act c h
    simpa using Nat.le_zero.mp (by simpa using h)
  | cons r rs ih =>
    intro act c h
    simp only [List.foldl_cons]
    apply ih
    by_cases hrc : r = c
    · subst hrc
      unfold disconnect
      by_cases hm : r ∈ act
      · rw [if_pos hm, List.count_erase_self]
        have hcnt : (r :: rs).count r = rs.count r + 1 := by simp [List.count_cons]
        omega
      · rw [if_neg hm]
        have : act.count r = 0 := List.count_eq_zero.mpr hm
        omega
    · have hcr : ¬(c = r) := fun he => hrc he.symm
      have hcons : (r :: rs).count c = rs.count c := by
        simp [List.count_cons, beq_iff_eq, hcr]
      unfold disconnect
      by_cases hm : r ∈ act
      · rw [if_pos hm, List.count_erase_of_ne hcr]
        omega
      · rw [if_neg hm]
        omega

/-- Folding `disconnect` never adds observers. -/
theorem foldl_disconnect_subset (rem : List Observer) :
    ∀ (act : List Observer) (c : Observer), c ∈ rem.foldl disconnect act → c ∈ act := by
  induction rem with
  | nil => intro act c h; simpa using h
  | cons r rs ih =>
    intro act c h
    simp only [List.foldl_cons] at h
    have hsub : c ∈ disconnect act r := ih _ _ h
    unfold disconnect at hsub
    by_cases hm : r ∈ act
    · rw [if_pos hm] at hsub
      exact List.erase_subset _ _ hsub
    · rwa [if_neg hm] at hsub

/-- Claim C7: a broadcast delivers to exactly the observers whose channels
work — a failing observer never prevents delivery to the others — and every
failing observer has been removed from the registry when the broadcast
completes (the registry otherwise only shrinks). -/
theorem c7_broadcast_isolation (active : List Observer) :
    (broadcast active).1 = active.filter (fun c => c.ok)
  ∧ (∀ c ∈ active, c.ok = false → c ∉ (broadcast active).2)
  ∧ (∀ c, c ∈ (broadcast active).2 → c ∈ active) := by
  have hsend := sendAll_eq active
  refine ⟨?_, ?_, ?_⟩
  · show (sendAll active).1 = _
    rw [hsend]
  · intro c _ hnot hmem
    have hmem2 : c ∈ (sendAll active).2.foldl disconnect active := hmem
    rw [hsend] at hmem2
    have hzero : ((active.filter (fun x => !x.ok)).foldl disconnect active).count c = 0 := by
      apply foldl_disconnect_count
      rw [count_filter_self (by simp [hnot])]
    rw [List.count_eq_zero] at hzero
    exact hzero hmem2
  · intro c hmem
    exact foldl_disconnect_subset _ _ _ hmem

/-- Witness for C7 at the spec's worked example: three observers, the second
with a broken channel; the broadcast reaches observers 1 and 3 and
observer 2 is removed from the registry. -/
theorem c7_broadcast_witness :
    (broadcast [⟨1, true⟩, ⟨2, false⟩, ⟨3, true⟩]).1 = [⟨1, true⟩, ⟨3, true⟩]
  ∧ (⟨2, false⟩ : Observer) ∉ (broadcast [⟨1, true⟩, ⟨2, false⟩, ⟨3, true⟩]).2 := by
  constructor
  · rw [(c7_broadcast_isolation [⟨1, true⟩, ⟨2, false⟩, ⟨3, true⟩]).1]
    decide
  · exact (c7_broadcast_isolation [⟨1, true⟩, ⟨2, false⟩, ⟨3, true⟩]).2.1
      ⟨2, false⟩ (by decide) rfl

/-- `insertDesc` only repositions the inserted element. -/
theorem insertDesc_perm (x : Str × Nat) (l : List (Str × Nat)) :
    (insertDesc x l).Perm (x :: l) := by
  induction l with
  | nil => exact List.Perm.refl _
  | cons y ys ih =>
    unfold insertDesc
    by_cases h : x.2 < y.2
    · rw [if_pos h]
      exact ((ih.cons y).trans (List.Perm.swap x y ys))
    · rw [if_neg h]

/-- `sortDesc` permutes its input. -/
theorem sortDesc_perm (l : List (Str × Nat)) : (sortDesc l).Perm l := by
  induction l with
  | nil => exact List.Perm.refl _
  | cons x xs ih =>
    exact (insertDesc_perm x (sortDesc xs)).trans (ih.cons x)

/-- Inserting into a descending-by-count list keeps it descending. -/
theorem pairwise_insertDesc {x : Str × Nat} {l : List (Str × Nat)}
    (h : l.Pairwise (fun a b => b.2 ≤ a.2)) :
    (insertDesc x l).Pairwise (fun a b => b.2 ≤ a.2) := by
  induction l with
  | nil => simp [insertDesc]
  | cons y ys ih =>
    rcases List.pairwise_cons.mp h with ⟨hy, hys⟩
    unfold insertDesc
    by_cases hlt : x.2 < y.2
    · rw [if_pos hlt]
      refine List.pairwise_cons.mpr ⟨?_, ih hys⟩
      intro z hz
      rcases List.mem_cons.mp ((insertDesc_perm x ys).subset hz) with rfl | hzys
      · exact Nat.le_of_lt hlt
      · exact hy z hzys
    · rw [if_neg hlt]
      refine List.pairwise_cons.mpr ⟨?_, h⟩
      intro z hz
      rcases List.mem_cons.mp hz with rfl | hzys
      · exact Nat.le_of_not_lt hlt
      · exact le_trans (hy z hzys) (Nat.le_of_not_lt hlt)

/-- The sorted counter list is descending by count. -/
theorem sortDesc_pairwise (l : List (Str × Nat)) :
    (sortDesc l).Pairwise (fun a b => b.2 ≤ a.2) := by
  induction l with
  | nil => simp [sortDesc]
  | cons x xs ih => exact pairwise_insertDesc ih

/-- Stability of the insertion step: restricted to any one count value, the
inserted element lands in front, exactly as in the unsorted `x :: l`. -/
theorem filter_insertDesc (c : Nat) (x : Str × Nat) (l : List (Str × Nat)) :
    (insertDesc x l).filter (fun p => p.2 == c) = (x :: l).filter (fun p => p.2 == c) := by
  induction l with
  | nil => rfl
  | cons y ys ih =>
    unfold insertDesc
    by_cases hlt : x.2 < y.2
    · rw [if_pos hlt]
      by_cases hy : y.2 = c
      · have hx : ¬(x.2 = c) := by omega
        simp [List.filter_cons, hy, hx, ih, beq_iff_eq]
      · simp [List.filter_cons, hy, ih, beq_iff_eq]
    · rw [if_neg hlt]

/-- Stability of `sortDesc`: entries sharing a count value keep their
original relative order (ties broken by first-occurrence order). -/
theorem sortDesc_stable (c : Nat) (l : List (Str × Nat)) :
    (sortDesc l).filter (fun p => p.2 == c) = l.filter (fun p => p.2 == c) := by
  induction l with
  | nil => rfl
  | cons x xs ih =>
    show (insertDesc x (sortDesc xs)).filter _ = _
    rw [filter_insertDesc]
    simp [List.filter_cons, ih]

/-- A Python `Counter` keyed by dict insertion order: bumping an existing
key keeps the key order, a new key is appended at the end, so the counter's
item order is the order of each domain's first occurrence. -/
theorem counterInc_keys (d : Str) (l : List (Str × Nat)) :
    (counterInc d l).map Prod.fst =
      if d ∈ l.map Prod.fst then l.map Prod.fst else l.map Prod.fst ++ [d] := by
  induction l with
  | nil => simp [counterInc]
  | cons kv rest ih =>
    obtain ⟨k, c⟩ := kv
    unfold counterInc
    by_cases hk : k = d
    · subst hk
      simp
    · have hne : ¬(d = k) := fun h => hk h.symm
      by_cases hd : d ∈ rest.map Prod.fst
      · simp [hk, ih, hd, hne]
      · simp [hk, ih, hd, hne]

/-- Elements in the kept prefix of the sorted list dominate the dropped
remainder. -/
theorem sortDesc_take_drop (l : List (Str × Nat)) (n : Nat) :
    ∀ a ∈ (sortDesc l).take n, ∀ b ∈ (sortDesc l).drop n, b.2 ≤ a.2 := by
  have hp := sortDesc_pairwise l
  rw [← List.take_append_drop n (sortDesc l)] at hp
  exact fun a ha b hb => (List.pairwise_append.mp hp).2.2 a ha b hb

/-- Claim C8: the snapshot's top-domain list is the (at most) 10 domains of
highest count: it is the 10-prefix of a stable descending sort of the
insertion-ordered counter items, so it is ordered by count descending, every
entry dominates every excluded domain, ties keep first-occurrence order
(`sortDesc` is stable and `counterInc` preserves key insertion order), and
it is a pure function of the counter state, so repeated calls on unchanged
counts return the identical ordering. -/
theorem c8_top_domains (s : Stats) :
    (summary_stats s).top_domains.length ≤ 10
  ∧ (summary_stats s).top_domains = (sortDesc s.domains).take 10
  ∧ (summary_stats s).top_domains.Pairwise (fun a b => b.2 ≤ a.2)
  ∧ (∀ a ∈ (summary_stats s).top_domains, ∀ b ∈ (sortDesc s.domains).drop 10, b.2 ≤ a.2)
  ∧ (∀ x ∈ (summary_stats s).top_domains, x ∈ s.domains)
  ∧ (sortDesc s.domains).Perm s.domains
  ∧ (∀ c : Nat, (sortDesc s.domains).filter (fun p => p.2 == c)
        = s.domains.filter (fun p => p.2 == c))
  ∧ (∀ (d : Str) (l : List (Str × Nat)), (counterInc d l).map Prod.fst
        = if d ∈ l.map Prod.fst then l.map Prod.fst else l.map Prod.fst ++ [d])
  ∧ (∀ s2 : Stats, s.domains = s2.domains →
        (summary_stats s).top_domains = (summary_stats s2).top_domains) := by
  refine ⟨List.length_take_le _ _, rfl, ?_, ?_, ?_, sortDesc_perm _,
    fun c => sortDesc_stable c s.domains, counterInc_keys, ?_⟩
  · exact (sortDesc_pairwise s.domains).sublist (List.take_sublist _ _)
  · exact sortDesc_take_drop s.domains 10
  · intro x hx
    exact (sortDesc_perm s.domains).subset (List.take_subset _ _ hx)
  · intro s2 h
    show most_common 10 s.domains = most_common 10 s2.domains
    rw [h]

/-- A concrete counter state: `c` has the highest count, `b` and `a` tie but
`b` was inserted first. -/
def statsW : Stats :=
  { total_emails := 9, spam_count := 0
  , domains := [("b".toList, 2), ("a".toList, 2), ("c".toList, 5)], events := [] }

/-- Witness for C8: the top-domain list of `statsW` puts `c` first and keeps
the tied `b` before `a`, and its entries come from the counter state. -/
theorem c8_top_domains_witness :
    (summary_stats statsW).top_domains
      = [("c".toList, 5), ("b".toList, 2), ("a".toList, 2)]
  ∧ ("b".toList, 2) ∈ statsW.domains := by
  constructor
  · rw [(c8_top_domains statsW).2.1]
    decide
  · exact (c8_top_domains statsW).2.2.2.2.1 ("b".toList, 2) (by decide)

/-- `dropLit` succeeds exactly on strings that extend the literal. -/
theorem dropLit_eq_some_iff (lit : Str) :
    ∀ (s t : Str), dropLit lit s = some t ↔ s = lit ++ t := by
  induction lit with
  | nil =>
    intro s t
    simp [dropLit]
  | cons p ps ih =>
    intro s t
    cases s with
    | nil => simp [dropLit]
    | cons c cs =>
      by_cases hpc : p = c
      · subst hpc
        simp [dropLit, ih]
      · simp only [dropLit, if_neg hpc]
        constructor
        · intro h
          exact Option.noConfusion h
        · intro h
          obtain ⟨hc, -⟩ := List.cons.inj h
          exact absurd hc.symm hpc

/-- A position-by-position scan `scan` built from a per-position test `here`
finds a match iff some suffix (equivalently, some split point) satisfies the
per-position property. -/
theorem scan_exists (here scan : Str → Bool)
    (h0 : scan [] = here [])
    (h1 : ∀ c rest, scan (c :: rest) = (here (c :: rest) || scan rest))
    (P : Str → Prop) (hhere : ∀ s, here s = true ↔ P s) (s : Str) :
    scan s = true ↔ ∃ l r, s = l ++ r ∧ P r := by
  induction s with
  | nil =>
    rw [h0, hhere]
    constructor
    · intro hp
      exact ⟨[], [], rfl, hp⟩
    · rintro ⟨l, r, hl, hp⟩
      obtain ⟨-, hr⟩ := List.append_eq_nil.mp hl.symm
      subst hr
      exact hp
  | cons c rest ih =>
    rw [h1, Bool.or_eq_true, hhere, ih]
    constructor
    · rintro (hp | ⟨l, r, hl, hp⟩)
      · exact ⟨[], c :: rest, rfl, hp⟩
      · exact ⟨c :: l, r, by rw [List.cons_append, hl], hp⟩
    · rintro ⟨l, r, hl, hp⟩
      cases l with
      | nil =>
        left
        rw [List.nil_append] at hl
        exact hl ▸ hp
      | cons c2 l2 =>
        right
        rw [List.cons_append] at hl
        obtain ⟨-, hrest⟩ := List.cons.inj hl
        exact ⟨l2, r, hrest, hp⟩

/-- The substring matcher finds a literal exactly when the text decomposes
around it. -/
theorem hasSub_iff (lit s : Str) :
    hasSub lit s = true ↔ ∃ l r, s = l ++ (lit ++ r) := by
  rw [scan_exists (fun s2 => (dropLit lit s2).isSome) (hasSub lit) rfl (fun _ _ => rfl)
      (fun s2 => ∃ t, s2 = lit ++ t)
      (fun s2 => by rw [Option.isSome_iff_exists]; exact exists_congr (fun t => dropLit_eq_some_iff lit s2 t)) s]
  constructor
  · rintro ⟨l, r, hl, t, ht⟩
    exact ⟨l, t, by rw [hl, ht]⟩
  · rintro ⟨l, r, h⟩
    exact ⟨l, lit ++ r, h, r, rfl⟩

/-- The single-position word-boundary test, characterised. -/
theorem wordBHere_iff (lit s : Str) :
    wordBHere lit s = true ↔
      ∃ t, s = lit ++ t ∧ (t = [] ∨ ∃ c t2, t = c :: t2 ∧ isWordChar c = false) := by
  unfold wordBHere
  cases h : dropLit lit s with
  | none =>
    constructor
    · intro hf
      exact Bool.noConfusion hf
    · rintro ⟨t, ht, -⟩
      rw [(dropLit_eq_some_iff lit s t).mpr ht] at h
      exact Option.noConfusion h
  | some t =>
    have ht : s = lit ++ t := (dropLit_eq_some_iff lit s t).mp h
    cases t with
    | nil => simp [ht]
    | cons c t2 =>
      constructor
      · intro hb
        exact ⟨c :: t2, ht, Or.inr ⟨c, t2, rfl, by simpa using hb⟩⟩
      · rintro ⟨t3, ht3, hcase⟩
        have hsome : dropLit lit s = some t3 := (dropLit_eq_some_iff lit s t3).mpr ht3
        rw [h] at hsome
        obtain rfl : c :: t2 = t3 := Option.some.inj hsome
        rcases hcase with he | ⟨c2, t4, heq, hw⟩
        · exact List.noConfusion he
        · obtain ⟨rfl, -⟩ := List.cons.inj heq
          simp [hw]

/-- `free\b` / `cheap\b` semantics: the literal occurs with a word boundary
(end of text or a non-word character) immediately after it. -/
theorem matchWordB_iff (lit s : Str) :
    matchWordB lit s = true ↔
      ∃ l r, s = l ++ (lit ++ r) ∧ (r = [] ∨ ∃ c r2, r = c :: r2 ∧ isWordChar c = false) := by
  rw [scan_exists (wordBHere lit) (matchWordB lit) rfl (fun _ _ => rfl) _ (wordBHere_iff lit) s]
  constructor
  · rintro ⟨l, r, hl, t, ht, hb⟩
    exact ⟨l, t, by rw [hl, ht], hb⟩
  · rintro ⟨l, r, hl, hb⟩
    exact ⟨l, lit ++ r, hl, r, rfl, hb⟩

/-- The single-position dollar test, characterised. -/
theorem dollarHere_iff (s : Str) :
    dollarHere s = true ↔ ∃ c t, s = '$' :: c :: t ∧ c.isDigit = true := by
  cases s with
  | nil => simp [dollarHere]
  | cons c1 rest =>
    cases rest with
    | nil => simp [dollarHere]
    | cons c2 t =>
      simp only [dollarHere, Bool.and_eq_true, beq_iff_eq]
      constructor
      · rintro ⟨rfl, hd⟩
        exact ⟨c2, t, rfl, hd⟩
      · rintro ⟨c, t2, heq, hd⟩
        obtain ⟨rfl, h2⟩ := List.cons.inj heq
        obtain ⟨rfl, -⟩ := List.cons.inj h2
        exact ⟨rfl, hd⟩

/-- `\$\d+` semantics: a dollar sign immediately followed by a digit occurs
in the text. -/
theorem matchDollar_iff (s : Str) :
    matchDollar s = true ↔ ∃ l c r, s = l ++ ('$' :: c :: r) ∧ c.isDigit = true := by
  rw [scan_exists dollarHere matchDollar rfl (fun _ _ => rfl)
      (fun s2 => ∃ c t, s2 = '$' :: c :: t ∧ c.isDigit = true) dollarHere_iff s]
  constructor
  · rintro ⟨l, r, hl, c, t, ht, hd⟩
    exact ⟨l, c, t, by rw [hl, ht], hd⟩
  · rintro ⟨l, c, r, hl, hd⟩
    exact ⟨l, '$' :: c :: r, hl, c, r, rfl, hd⟩

/-- The keyword loop adds exactly 0.25 per matching pattern, independent of
how often a pattern occurs in the text. -/
theorem keywordScore_count (t : Str) :
    keywordScore t = ((SPAM_KEYWORDS.filter (fun kw => reSearch kw t)).length : ℚ) * (1/4) := by
  unfold keywordScore
  suffices h : ∀ (l : List Pat) (init : ℚ),
      l.foldl (fun sc kw => if reSearch kw t then sc + 1/4 else sc) init
        = init + ((l.filter (fun kw => reSearch kw t)).length : ℚ) * (1/4) by
    rw [h SPAM_KEYWORDS 0, zero_add]
  intro l
  induction l with
  | nil => intro init; simp
  | cons k ks ih =>
    intro init
    by_cases hk : reSearch k t
    · simp only [List.foldl_cons, hk, if_true, ih, List.filter_cons, List.length_cons]
      push_cast
      ring
    · simp only [List.foldl_cons, hk, if_false, ih, List.filter_cons]
      simp [hk]

/-- The final rule-based score decomposes into the keyword component plus
the exclamation bonus plus the URL-tier bonus, clamped at 1. -/
theorem rule_score_decomposition (text : Str) :
    (rule_based_detection text).score
      = pymin (keywordScore (lowerL text)
          + (if hasExclaim text then 3/20 else 0)
          + (if 2 ≤ countUrls text then 1/5 else if countUrls text = 1 then 2/25 else 0)) 1 := by
  simp only [rule_based_detection]
  congr 1
  by_cases h2 : 2 ≤ countUrls text
  · rw [if_pos h2, if_pos h2]
    by_cases he : hasExclaim text
    · rw [if_pos he, if_pos he]
    · rw [if_neg he, if_neg he]
      ring
  · rw [if_neg h2, if_neg h2]
    by_cases h1 : countUrls text = 1
    · rw [if_pos h1, if_pos h1]
      by_cases he : hasExclaim text
      · rw [if_pos he, if_pos he]
      · rw [if_neg he, if_neg he]
        ring
    · rw [if_neg h1, if_neg h1]
      by_cases he : hasExclaim text
      · rw [if_pos he, if_pos he]
        ring
      · rw [if_neg he, if_neg he]
        ring

/-- Claim C2 counterexample: `free` occurs as a case-insensitive substring
of `"freedom"`, yet the scorer adds nothing — the source pattern is
`free\b`, not a plain substring, and `d` is a word character. -/
theorem c2_counterexample :
    hasSub "free".toList (lowerL "freedom".toList) = true
  ∧ rule_based_detection "freedom".toList = { is_spam := false, score := 0 } := by
  constructor
  · decide
  · simp +decide [rule_based_detection, keywordScore, SPAM_KEYWORDS, pymin]

/-- Claim C2, amended: the scorer evaluates the 13 fixed regex patterns
against the lower-cased text and adds exactly 0.25 per matching pattern,
once per pattern regardless of occurrence count; ten patterns are plain
substrings, but `free` and `cheap` also need a word boundary after the
literal and the dollar pattern needs `$` immediately followed by a digit;
keyword matching depends only on the lower-cased text. -/
theorem c2_keywords_amended :
    (∀ text : Str, keywordScore (lowerL text)
        = ((SPAM_KEYWORDS.filter (fun kw => reSearch kw (lowerL text))).length : ℚ) * (1/4))
  ∧ SPAM_KEYWORDS.length = 13
  ∧ (∀ text : Str, (rule_based_detection text).score
        = pymin (keywordScore (lowerL text)
            + (if hasExclaim text then 3/20 else 0)
            + (if 2 ≤ countUrls text then 1/5 else if countUrls text = 1 then 2/25 else 0)) 1)
  ∧ (∀ lit s : Str, reSearch (.lit lit) s = true ↔ ∃ l r, s = l ++ (lit ++ r))
  ∧ (∀ lit s : Str, reSearch (.litWordB lit) s = true ↔
        ∃ l r, s = l ++ (lit ++ r) ∧ (r = [] ∨ ∃ c r2, r = c :: r2 ∧ isWordChar c = false))
  ∧ (∀ s : Str, reSearch .dollarDigits s = true ↔
        ∃ l c r, s = l ++ ('$' :: c :: r) ∧ c.isDigit = true)
  ∧ (∀ t1 t2 : Str, lowerL t1 = lowerL t2 →
        keywordScore (lowerL t1) = keywordScore (lowerL t2)) :=
  ⟨fun text => keywordScore_count (lowerL text), rfl, rule_score_decomposition,
    hasSub_iff, matchWordB_iff, matchDollar_iff, fun _ _ h => by rw [h]⟩

/-- Witness for the amended C2 theorem: case-insensitivity at a concrete
pair, and the per-pattern additivity on a text matching exactly two
patterns (`free\b` and `\$\d+`). -/
theorem c2_keywords_witness :
    keywordScore (lowerL "FREE".toList) = keywordScore (lowerL "free".toList)
  ∧ keywordScore (lowerL "free $50 now".toList) = 2 * (1/4) := by
  constructor
  · exact c2_keywords_amended.2.2.2.2.2.2 "FREE".toList "free".toList (by decide)
  · have h := c2_keywords_amended.1 "free $50 now".toList
    rw [h, show (SPAM_KEYWORDS.filter
        (fun kw => reSearch kw (lowerL "free $50 now".toList))).length = 2 from by decide]
    norm_num

/-- Unfolding of a successfully parsed delivery step. -/
theorem stepDelivery_ok (classify : Str → Verdict) (s : Stats) (d : Delivery)
    (parsed : ParsedEmail) (hp : parse_email d.msg d.raw = .ok parsed) :
    stepDelivery classify s d
      = recordEvent s (eventOf classify d parsed) (sender_domain d.envelope_from parsed.fromH) := by
  unfold stepDelivery process_email
  rw [hp]

/-- A delivery whose parse raises leaves the state untouched. -/
theorem stepDelivery_err (classify : Str → Verdict) (s : Stats) (d : Delivery)
    (e : PyError) (hp : parse_email d.msg d.raw = .error e) :
    stepDelivery classify s d = s := by
  unfold stepDelivery process_email
  rw [hp]

/-- `contentOk` is exactly parse success. -/
theorem contentOk_iff_parse (msg : PyMessage) (raw : Str) :
    contentOk msg = true ↔ ∃ p, parse_email msg raw = .ok p := by
  unfold contentOk parse_email
  cases bodyResult msg <;> simp

/-- The From-header field of a successful parse is the header with default
`""`. -/
theorem parse_ok_fromH (msg : PyMessage) (raw : Str) (parsed : ParsedEmail)
    (hp : parse_email msg raw = .ok parsed) : parsed.fromH = msg.fromH.getD [] := by
  unfold parse_email at hp
  cases hb : bodyResult msg with
  | error e => rw [hb] at hp; exact Except.noConfusion hp
  | ok b =>
    rw [hb] at hp
    rw [← Except.ok.inj hp]

/-- Truncating before or after prepending a prefix gives the same bounded
list. -/
theorem take_append_take (a l : List Event) :
    (a ++ l.take 200).take 200 = (a ++ l).take 200 := by
  rw [List.take_append_eq_append_take, List.take_append_eq_append_take, List.take_take]
  congr 1
  rw [Nat.min_eq_left (Nat.sub_le _ _)]

/-- The bounded event history after a run of deliveries: the events of the
successfully parsed deliveries, newest first, in front of the starting
history, truncated to capacity 200. -/
theorem foldStats_events (classify : Str → Verdict) (ds : List Delivery) :
    ∀ s : Stats, s.events.length ≤ 200 →
      (foldStats classify s ds).events
        = ((ds.filterMap (deliveryEvent classify)).reverse ++ s.events).take 200 := by
  induction ds with
  | nil =>
    intro s hs
    simp [foldStats, List.take_of_length_le hs]
  | cons d ds ih =>
    intro s hs
    show (foldStats classify (stepDelivery classify s d) ds).events = _
    cases hp : parse_email d.msg d.raw with
    | error e =>
      have hde : deliveryEvent classify d = none := by
        unfold deliveryEvent
        rw [hp]
      rw [stepDelivery_err classify s d e hp, ih s hs, List.filterMap_cons, hde]
    | ok parsed =>
      have hstep := stepDelivery_ok classify s d parsed hp
      have hde : deliveryEvent classify d = some (eventOf classify d parsed) := by
        unfold deliveryEvent
        rw [hp]
      have hlen2 : (stepDelivery classify s d).events.length ≤ 200 := by
        rw [hstep]
        exact List.length_take_le _ _
      rw [ih _ hlen2, hstep]
      show ((ds.filterMap _).reverse ++ (eventOf classify d parsed :: s.events).take 200).take 200
        = _
      rw [List.filterMap_cons, hde, List.reverse_cons, take_append_take, List.append_assoc,
        List.singleton_append]

/-- With every parse succeeding, each delivery contributes one event. -/
theorem filterMap_length_of_ok (classify : Str → Verdict) (ds : List Delivery)
    (h : ∀ d ∈ ds, contentOk d.msg = true) :
    (ds.filterMap (deliveryEvent classify)).length = ds.length := by
  induction ds with
  | nil => rfl
  | cons d ds ih =>
    obtain ⟨p, hp⟩ := (contentOk_iff_parse d.msg d.raw).mp (h d (List.mem_cons_self d ds))
    have hde : deliveryEvent classify d = some (eventOf classify d p) := by
      unfold deliveryEvent
      rw [hp]
    rw [List.filterMap_cons, hde, List.length_cons, List.length_cons,
      ih (fun x hx => h x (List.mem_cons_of_mem d hx))]

/-- The head of the bounded history after a processed delivery. -/
theorem head_take_cons (e : Event) (l : List Event) :
    ((e :: l).take 200).head? = some e := by
  rw [show (200 : Nat) = 199 + 1 from rfl, List.take_succ_cons]
  rfl

/-- Claim C4: the event history never exceeds 200 entries; each processed
delivery prepends its event at index 0; and across 201 all-parsing
deliveries the resulting history is exactly the last 200 events newest
first — the first delivery's event has been evicted (provided it does not
recur later) and the 201st delivery's event sits at index 0. -/
theorem c4_recent_events (classify : Str → Verdict) (ds : List Delivery) :
    (foldStats classify initStats ds).events.length ≤ 200
  ∧ (∀ (s : Stats) (d : Delivery) (parsed : ParsedEmail),
        parse_email d.msg d.raw = .ok parsed →
        (stepDelivery classify s d).events.head? = some (eventOf classify d parsed))
  ∧ (∀ e1 es, ds.length = 201 → (∀ d ∈ ds, contentOk d.msg = true) →
        ds.filterMap (deliveryEvent classify) = e1 :: es →
        (foldStats classify initStats ds).events = es.reverse
        ∧ (foldStats classify initStats ds).events.head? = es.getLast?
        ∧ (e1 ∉ es → e1 ∉ (foldStats classify initStats ds).events)) := by
  have hbase : (initStats.events : List Event).length ≤ 200 := by
    simp [initStats]
  refine ⟨?_, ?_, ?_⟩
  · rw [foldStats_events classify ds initStats hbase]
    exact List.length_take_le _ _
  · intro s d parsed hp
    rw [stepDelivery_ok classify s d parsed hp]
    exact head_take_cons _ _
  · intro e1 es hlen hok hsplit
    have hfm : (ds.filterMap (deliveryEvent classify)).length = 201 := by
      rw [filterMap_length_of_ok classify ds hok, hlen]
    have heslen : es.length = 200 := by
      rw [hsplit] at hfm
      simpa using hfm
    have hev : (foldStats classify initStats ds).events = es.reverse := by
      rw [foldStats_events classify ds initStats hbase, hsplit]
      show ((e1 :: es).reverse ++ []).take 200 = es.reverse
      rw [List.append_nil, List.reverse_cons,
        show (200 : Nat) = es.reverse.length from by simp [heslen],
        List.take_left]
    refine ⟨hev, ?_, ?_⟩
    · rw [hev, List.head?_reverse]
    · intro hnot hmem
      rw [hev, List.mem_reverse] at hmem
      exact hnot hmem

/-- The `i`-th witness delivery: well-formed single-part message; the
timestamp (length-`i` string) makes the 201 events pairwise distinct. -/
def mkDeliveryW (i : Nat) : Delivery :=
  { envelope_from := "u@d.test".toList
  , rcpt_tos := []
  , msg := { subject := none, fromH := none, toH := none, isMultipart := false
           , parts := [], content := .ok [] }
  , raw := []
  , time := List.replicate i 'x' }

/-- 201 witness deliveries in order. -/
def dsW : List Delivery := (List.range 201).map mkDeliveryW

/-- The event the `i`-th witness delivery produces. -/
def evW (i : Nat) : Event :=
  eventOf ruleClassify (mkDeliveryW i) { subject := [], fromH := [], toH := [], body := [], raw := [] }

/-- The event trace of the witness deliveries splits off its head. -/
theorem dsW_filterMap :
    dsW.filterMap (deliveryEvent ruleClassify)
      = evW 0 :: (List.range 200).map (fun i => evW (i + 1)) := by
  unfold dsW
  rw [List.filterMap_map]
  have hfe : (deliveryEvent ruleClassify ∘ mkDeliveryW) = some ∘ evW :=
    funext fun i => rfl
  rw [hfe, List.filterMap_eq_map, List.range_succ_eq_map, List.map_cons, List.map_map]
  rfl

/-- Witness for C4: after the 201 witness deliveries the history is exactly
the events of deliveries 2..201 newest first, the 201st delivery's event is
at index 0, and the first delivery's event is gone. -/
theorem c4_recent_events_witness :
    (foldStats ruleClassify initStats dsW).events
      = ((List.range 200).map (fun i => evW (i + 1))).reverse
  ∧ (foldStats ruleClassify initStats dsW).events.head?
      = ((List.range 200).map (fun i => evW (i + 1))).getLast?
  ∧ evW 0 ∉ (foldStats ruleClassify initStats dsW).events := by
  have hlen : dsW.length = 201 := by
    simp [dsW]
  have hok : ∀ d ∈ dsW, contentOk d.msg = true := by
    intro d hd
    obtain ⟨i, -, rfl⟩ := List.mem_map.mp hd
    rfl
  have h := (c4_recent_events ruleClassify dsW).2.2 (evW 0)
    ((List.range 200).map (fun i => evW (i + 1))) hlen hok dsW_filterMap
  refine ⟨h.1, h.2.1, h.2.2 ?_⟩
  intro hmem
  obtain ⟨i, -, heq⟩ := List.mem_map.mp hmem
  have ht := congrArg Event.time heq
  have : List.replicate (i + 1) 'x' = ([] : Str) := ht
  simpa using congrArg List.length this

/-- Bumping one counter raises the total of all counters by exactly 1. -/
theorem sumCounts_counterInc (d : Str) (l : List (Str × Nat)) :
    sumCounts (counterInc d l) = sumCounts l + 1 := by
  induction l with
  | nil => rfl
  | cons kv rest ih =>
    obtain ⟨k, c⟩ := kv
    unfold counterInc
    by_cases hk : k = d
    · simp [hk, sumCounts]
      omega
    · simp only [if_neg hk]
      simp [sumCounts] at ih ⊢
      omega

/-- A processed delivery whose extracted domain is falsy (`None` or `""`).
Such an event raises `total_emails` without touching any domain counter. -/
def noDomain (d : Delivery) : Prop :=
  sender_domain d.envelope_from (d.msg.fromH.getD []) = none
  ∨ sender_domain d.envelope_from (d.msg.fromH.getD []) = some []

/-- Unfolding one step of the delivery fold. -/
theorem foldStats_cons (classify : Str → Verdict) (s : Stats) (d : Delivery)
    (ds : List Delivery) :
    foldStats classify s (d :: ds) = foldStats classify (stepDelivery classify s d) ds := rfl

/-- One aggregation step keeps `spam_count ≤ total_emails` and never closes
the gap between the domain-counter total and `total_emails`. -/
theorem recordEvent_bounds (s : Stats) (e : Event) (dom : Option Str) (k : Nat)
    (hspam : s.spam_count ≤ s.total_emails)
    (hdom : sumCounts s.domains + k ≤ s.total_emails) :
    (recordEvent s e dom).spam_count ≤ (recordEvent s e dom).total_emails
    ∧ sumCounts (recordEvent s e dom).domains + k ≤ (recordEvent s e dom).total_emails := by
  constructor
  · show (if e.is_spam then s.spam_count + 1 else s.spam_count) ≤ s.total_emails + 1
    by_cases hsp : e.is_spam <;> simp [hsp] <;> omega
  · cases dom with
    | none =>
      show sumCounts s.domains + k ≤ s.total_emails + 1
      omega
    | some d =>
      show sumCounts (if d = [] then s.domains else counterInc d s.domains) + k
        ≤ s.total_emails + 1
      by_cases hd : d = []
      · rw [if_pos hd]
        omega
      · rw [if_neg hd, sumCounts_counterInc]
        omega

/-- Folding deliveries preserves both invariants and any established gap
between the domain-counter total and `total_emails`. -/
theorem foldStats_bounds (classify : Str → Verdict) (ds : List Delivery) :
    ∀ (s : Stats) (k : Nat),
      s.spam_count ≤ s.total_emails →
      sumCounts s.domains + k ≤ s.total_emails →
      (foldStats classify s ds).spam_count ≤ (foldStats classify s ds).total_emails
      ∧ sumCounts (foldStats classify s ds).domains + k
          ≤ (foldStats classify s ds).total_emails := by
  induction ds with
  | nil => exact fun s k hs hd => ⟨hs, hd⟩
  | cons d ds ih =>
    intro s k hs hd
    rw [foldStats_cons]
    cases hp : parse_email d.msg d.raw with
    | error e =>
      rw [stepDelivery_err classify s d e hp]
      exact ih s k hs hd
    | ok parsed =>
      rw [stepDelivery_ok classify s d parsed hp]
      obtain ⟨h1, h2⟩ := recordEvent_bounds s (eventOf classify d parsed)
        (sender_domain d.envelope_from parsed.fromH) k hs hd
      exact ih _ k h1 h2

/-- Once a processed delivery contributes no domain count, the strict gap
appears and persists. -/
theorem foldStats_strict (classify : Str → Verdict) (ds : List Delivery) :
    ∀ s : Stats,
      s.spam_count ≤ s.total_emails →
      sumCounts s.domains ≤ s.total_emails →
      (∃ d ∈ ds, contentOk d.msg = true ∧ noDomain d) →
      sumCounts (foldStats classify s ds).domains + 1
        ≤ (foldStats classify s ds).total_emails := by
  induction ds with
  | nil =>
    rintro s - - ⟨d, hd, -⟩
    exact absurd hd (List.not_mem_nil d)
  | cons d ds ih =>
    rintro s hs hdom ⟨d2, hd2, hc, hnd⟩
    rw [foldStats_cons]
    rcases List.mem_cons.mp hd2 with rfl | hmem
    · obtain ⟨parsed, hp⟩ := (contentOk_iff_parse d2.msg d2.raw).mp hc
      rw [stepDelivery_ok classify s d2 parsed hp]
      have hfH : parsed.fromH = d2.msg.fromH.getD [] := parse_ok_fromH d2.msg d2.raw parsed hp
      have hgap : sumCounts (recordEvent s (eventOf classify d2 parsed)
          (sender_domain d2.envelope_from parsed.fromH)).domains + 1
          ≤ (recordEvent s (eventOf classify d2 parsed)
              (sender_domain d2.envelope_from parsed.fromH)).total_emails := by
        show sumCounts (match sender_domain d2.envelope_from parsed.fromH with
          | some dm => if dm = [] then s.domains else counterInc dm s.domains
          | none => s.domains) + 1 ≤ s.total_emails + 1
        rw [hfH]
        rcases hnd with hn | hn <;> rw [hn] <;> simpa using hdom
      have hspam2 : (recordEvent s (eventOf classify d2 parsed)
          (sender_domain d2.envelope_from parsed.fromH)).spam_count
          ≤ (recordEvent s (eventOf classify d2 parsed)
              (sender_domain d2.envelope_from parsed.fromH)).total_emails :=
        (recordEvent_bounds s _ _ 0 hs (by omega)).1
      exact (foldStats_bounds classify ds _ 1 hspam2 hgap).2
    · cases hp : parse_email d.msg d.raw with
      | error e =>
        rw [stepDelivery_err classify s d e hp]
        exact ih s hs hdom ⟨d2, hmem, hc, hnd⟩
      | ok parsed =>
        rw [stepDelivery_ok classify s d parsed hp]
        obtain ⟨h1, h2⟩ := recordEvent_bounds s (eventOf classify d parsed)
          (sender_domain d.envelope_from parsed.fromH) 0 hs (by omega)
        exact ih _ h1 (by omega) ⟨d2, hmem, hc, hnd⟩

/-- Claim C5: from the all-zero initial state, after any run of deliveries
`spam_count ≤ total_emails` and `sum(domainCounts) ≤ total_emails` hold, and
once some processed delivery had no extractable sender domain the second
inequality is strict and stays strict. -/
theorem c5_stats_invariants (classify : Str → Verdict) (ds : List Delivery) :
    (foldStats classify initStats ds).spam_count
      ≤ (foldStats classify initStats ds).total_emails
  ∧ sumCounts (foldStats classify initStats ds).domains
      ≤ (foldStats classify initStats ds).total_emails
  ∧ ((∃ d ∈ ds, contentOk d.msg = true ∧ noDomain d) →
      sumCounts (foldStats classify initStats ds).domains
        < (foldStats classify initStats ds).total_emails) := by
  obtain ⟨h1, h2⟩ := foldStats_bounds classify ds initStats 0 (Nat.le_refl 0) (Nat.le_refl 0)
  refine ⟨h1, by omega, ?_⟩
  intro hex
  have := foldStats_strict classify ds initStats (Nat.le_refl 0) (Nat.le_refl 0) hex
  omega

/-- A delivery with no `@` anywhere: no domain is extractable. -/
def dNoDomW : Delivery :=
  { envelope_from := "nobody".toList
  , rcpt_tos := []
  , msg := { subject := none, fromH := none, toH := none, isMultipart := false
           , parts := [], content := .ok [] }
  , raw := []
  , time := [] }

/-- Witness for C5: one processed delivery without an extractable domain
makes the domain-count total strictly smaller than `total_emails`. -/
theorem c5_stats_invariants_witness :
    (foldStats ruleClassify initStats [dNoDomW]).spam_count
      ≤ (foldStats ruleClassify initStats [dNoDomW]).total_emails
  ∧ sumCounts (foldStats ruleClassify initStats [dNoDomW]).domains
      < (foldStats ruleClassify initStats [dNoDomW]).total_emails := by
  have h := c5_stats_invariants ruleClassify [dNoDomW]
  exact ⟨h.1, h.2.2 ⟨dNoDomW, List.mem_singleton_self dNoDomW, rfl, Or.inl (by decide)⟩⟩
